import Mathlib

/-!
Shallow embedding of `gfx_hat_stats.py` (a status dashboard for a 128x64
monochrome display): the rate estimator `get_network_usage`, the rolling
history deques, the page state machine driven by the button handlers
`next_page` / `prev_page`, the graph renderer `draw_graph`, and the page-2
network scaling and temperature-display logic.

Python floats are modelled as rationals (ℚ), cumulative byte counters as
integers (ℤ).  Python `%` on integers with a positive modulus agrees with
Lean's `Int.emod`, and Python `int()` on a nonnegative float is the floor.
-/

namespace GfxHatStats

/-- Display width in pixels (`WIDTH = 128` in the source). -/
def WIDTH : ℕ := 128

/-- Display height in pixels (`HEIGHT = 64` in the source). -/
def HEIGHT : ℕ := 64

/-- `total_pages = 3` in the source. -/
def total_pages : ℤ := 3

/-! ## RollingSeries: `deque([0] * WIDTH, maxlen=WIDTH)` -/

/-- One `deque.append` on a deque with `maxlen`: the new element is appended
and elements are discarded from the left so that at most `maxlen` remain. -/
def deque_append (maxlen : ℕ) (xs : List ℚ) (v : ℚ) : List ℚ :=
  (xs ++ [v]).drop (xs.length + 1 - maxlen)

/-- A sequence of `deque.append` calls, oldest push first. -/
def deque_push_all (maxlen : ℕ) (xs : List ℚ) (ps : List ℚ) : List ℚ :=
  ps.foldl (deque_append maxlen) xs

/-- `cpu_history = deque([0] * WIDTH, maxlen=WIDTH)` — the initial contents. -/
def cpu_history0 : List ℚ := List.replicate WIDTH 0

/-- `net_history = deque([0] * WIDTH, maxlen=WIDTH)` — the initial contents. -/
def net_history0 : List ℚ := List.replicate WIDTH 0

/-! ## RateEstimator: `get_network_usage` -/

/-- The `last_net_io` dictionary: cumulative byte counters and a timestamp. -/
structure NetSnapshot where
  bytes_sent : ℤ
  bytes_recv : ℤ
  time : ℚ
deriving DecidableEq, Repr

/-- `get_network_usage`, with the psutil reading `(sent, recv)` and the wall
clock `now` passed explicitly and the module global `last_net_io` threaded as
state.  Returns the rate in KB/s and the new value of `last_net_io`.
If a prior snapshot exists and `time_delta > 0` the rate is
`(bytes_sent + bytes_recv) / 1024 / time_delta`; in every case the snapshot is
replaced by the current reading (the code falls through to the final
assignment when `last_net_io` is `None` or `time_delta <= 0`). -/
def get_network_usage (last_net_io : Option NetSnapshot) (sent recv : ℤ)
    (now : ℚ) : ℚ × Option NetSnapshot :=
  match last_net_io with
  | some l =>
      let bs : ℤ := sent - l.bytes_sent
      let br : ℤ := recv - l.bytes_recv
      let td : ℚ := now - l.time
      if 0 < td then
        (((bs + br : ℤ) : ℚ) / 1024 / td, some ⟨sent, recv, now⟩)
      else
        (0, some ⟨sent, recv, now⟩)
  | none => (0, some ⟨sent, recv, now⟩)

/-! ## Page-2 helpers: network scaling and the temperature label -/

/-- `net_scaled = min((net_usage / 1000) * 100, 100)` from `draw_page_2`. -/
def net_scaled (net_usage : ℚ) : ℚ := min (net_usage / 1000 * 100) 100

/-- Whether `draw_page_2` draws the temperature in the CPU label: the code
tests `if cpu_temp:` on an `Optional[float]`, which is Python truthiness —
false for `None` and also for a reading of exactly `0.0`. -/
def cpu_temp_shown (cpu_temp : Option ℚ) : Bool :=
  match cpu_temp with
  | none => false
  | some t => decide (t ≠ 0)

/-! ## Page state machine: `next_page` / `prev_page` handlers -/

/-- The mutable state the button handlers touch: the module global
`current_page`, plus a count of `update_display` calls so that "triggers a
render pass" is observable. -/
structure AppState where
  current_page : ℤ
  renders : ℕ
deriving DecidableEq, Repr

/-- `update_display()` as observed by the handlers: one more render pass. -/
def update_display (s : AppState) : AppState := { s with renders := s.renders + 1 }

/-- `next_page(ch, event)`: on `'press'`, advance `current_page` by `+1`
modulo `total_pages` and render; otherwise do nothing. -/
def next_page (_ch : ℕ) (event : String) (s : AppState) : AppState :=
  if event = "press" then
    update_display { s with current_page := (s.current_page + 1) % total_pages }
  else s

/-- `prev_page(ch, event)`: on `'press'`, advance `current_page` by `-1`
modulo `total_pages` and render; otherwise do nothing. -/
def prev_page (_ch : ℕ) (event : String) (s : AppState) : AppState :=
  if event = "press" then
    update_display { s with current_page := (s.current_page - 1) % total_pages }
  else s

/-- A page transition: which of the two buttons was pressed. -/
inductive PageEvent where
  | next : PageEvent
  | prev : PageEvent
deriving DecidableEq, Repr

/-- The effect of one button press on the current page, read off from the
corresponding handler (channels 5 and 3 as wired in `main`). -/
def page_step (p : ℤ) : PageEvent → ℤ
  | PageEvent.next => (next_page 5 "press" ⟨p, 0⟩).current_page
  | PageEvent.prev => (prev_page 3 "press" ⟨p, 0⟩).current_page

/-- The page reached after a sequence of button presses. -/
def page_run (p : ℤ) (evs : List PageEvent) : ℤ := evs.foldl page_step p

/-! ## GraphRenderer: `draw_graph` -/

/-- Python `int()` applied to a rational: truncation toward zero. -/
def pyInt (q : ℚ) : ℤ := if 0 ≤ q then ⌊q⌋ else -⌊-q⌋

/-- `bar_height` as computed in `draw_graph`:
`int((value / max_value) * (height - 2))`, then capped at `height - 2`. -/
def bar_height (v max_value : ℚ) (height : ℤ) : ℤ :=
  min (pyInt (v / max_value * ((height : ℚ) - 2))) (height - 2)

/-- The vertical line segments drawn by the column loop of `draw_graph`: for
each index `x` with value `v > 0` whose capped bar height is positive, the
segment `(x + 1, y_top, y_bottom)` with `y_bottom = y_start + height - 2` and
`y_top = y_bottom - bar_height`. -/
def draw_graph_segments (data : List ℚ) (y_start height : ℤ) (max_value : ℚ) :
    List (ℤ × ℤ × ℤ) :=
  data.enum.filterMap fun xv =>
    if 0 < xv.2 then
      if 0 < bar_height xv.2 max_value height then
        some ((xv.1 : ℤ) + 1,
          y_start + height - 2 - bar_height xv.2 max_value height,
          y_start + height - 2)
      else none
    else none

/-- Membership on the one-pixel border rectangle
`[(0, y_start), (WIDTH - 1, y_start + height - 1)]` drawn with `outline=1`. -/
def onBorder (y_start height px py : ℤ) : Prop :=
  (0 ≤ px ∧ px ≤ (WIDTH : ℤ) - 1 ∧ y_start ≤ py ∧
      py ≤ y_start + height - 1) ∧
  (px = 0 ∨ px = (WIDTH : ℤ) - 1 ∨ py = y_start ∨
      py = y_start + height - 1)

instance (y_start height px py : ℤ) :
    Decidable (onBorder y_start height px py) := by
  unfold onBorder
  infer_instance

/-- The pixel `(px, py)` is lit after `draw_graph(draw, data, y_start, height,
max_value)` runs on a fresh bitmap: nothing at all for empty data (the early
return), otherwise the border or one of the bar segments covers it. -/
def draw_graph_pixel (data : List ℚ) (y_start height : ℤ) (max_value : ℚ)
    (px py : ℤ) : Prop :=
  data ≠ [] ∧
    (onBorder y_start height px py ∨
      ∃ s ∈ draw_graph_segments data y_start height max_value,
        px = s.1 ∧ s.2.1 ≤ py ∧ py ≤ s.2.2)

instance (data : List ℚ) (y_start height : ℤ) (max_value : ℚ) (px py : ℤ) :
    Decidable (draw_graph_pixel data y_start height max_value px py) := by
  unfold draw_graph_pixel
  infer_instance

/-- Modelled from the spec's words in claim C6, for comparison with
`bar_height`: `clamp(round(v / max_value * (height - 2)), 0, height - 2)`. -/
def claimed_bar_height (v max_value : ℚ) (height : ℤ) : ℤ :=
  max 0 (min (round (v / max_value * ((height : ℚ) - 2))) (height - 2))

/-- Modelled from the spec's words in claim C6: when the claimed bar height is
positive, a run of exactly that many pixels at column `x + 1`, upward from the
bottom interior edge `y_start + height - 2`. -/
def claimed_graph_segments (data : List ℚ) (y_start height : ℤ)
    (max_value : ℚ) : List (ℤ × ℤ × ℤ) :=
  data.enum.filterMap fun xv =>
    if 0 < claimed_bar_height xv.2 max_value height then
      some ((xv.1 : ℤ) + 1,
        y_start + height - 2 - claimed_bar_height xv.2 max_value height + 1,
        y_start + height - 2)
    else none

/-- Modelled from the spec's words in claim C6: the pixel `(px, py)` lit by
the claimed renderer (border plus runs of exactly `bar` pixels). -/
def claimed_graph_pixel (data : List ℚ) (y_start height : ℤ) (max_value : ℚ)
    (px py : ℤ) : Prop :=
  onBorder y_start height px py ∨
    ∃ s ∈ claimed_graph_segments data y_start height max_value,
      px = s.1 ∧ s.2.1 ≤ py ∧ py ≤ s.2.2

instance (data : List ℚ) (y_start height : ℤ) (max_value : ℚ) (px py : ℤ) :
    Decidable (claimed_graph_pixel data y_start height max_value px py) := by
  unfold claimed_graph_pixel
  infer_instance

/-! ## RateEstimator theorems (C1, C2, C3) -/

/-- C1 counterexample: with a stored snapshot of `(700, 900)` at time `1` and a
strictly smaller reading `(100, 200)` at time `3` (a counter reset), the code
returns a strictly negative rate, contradicting the claim that the returned
rate is never negative across a metric-source restart. -/
theorem rate_decrease_negative :
    (get_network_usage (some ⟨700, 900, 1⟩) 100 200 3).1 < 0 := by
  simp only [get_network_usage]
  norm_num

/-- C1 (amended): when the cumulative counters in the current call are strictly
smaller than in the stored snapshot and elapsed time is positive, the code
returns the raw difference quotient — which is strictly NEGATIVE for that one
call — but it does re-establish the baseline from the new reading, and the
following call computes its rate relative to that new baseline only (in
particular it is nonnegative once the counters grow again). -/
theorem rate_reset_rebaseline (l : NetSnapshot) (s r : ℤ) (t : ℚ)
    (hlt : s + r < l.bytes_sent + l.bytes_recv) (ht : 0 < t - l.time) :
    (get_network_usage (some l) s r t).1 < 0 ∧
    (get_network_usage (some l) s r t).2 = some ⟨s, r, t⟩ ∧
    ∀ (s2 r2 : ℤ) (t2 : ℚ), s ≤ s2 → r ≤ r2 → t < t2 →
      (get_network_usage (some ⟨s, r, t⟩) s2 r2 t2).1 =
        ((s2 - s + (r2 - r) : ℤ) : ℚ) / 1024 / (t2 - t) ∧
      0 ≤ (get_network_usage (some ⟨s, r, t⟩) s2 r2 t2).1 := by
  refine ⟨?_, ?_, ?_⟩
  · simp only [get_network_usage, if_pos ht]
    have hnum : ((s - l.bytes_sent + (r - l.bytes_recv) : ℤ) : ℚ) < 0 := by
      have : (s - l.bytes_sent + (r - l.bytes_recv) : ℤ) < 0 := by omega
      exact_mod_cast this
    exact div_neg_of_neg_of_pos (div_neg_of_neg_of_pos hnum (by norm_num)) ht
  · simp only [get_network_usage, if_pos ht]
  · intro s2 r2 t2 hs2 hr2 ht2
    have ht2' : (0 : ℚ) < t2 - t := by linarith
    constructor
    · simp only [get_network_usage, if_pos ht2']
    · simp only [get_network_usage, if_pos ht2']
      have hnum : (0 : ℚ) ≤ ((s2 - s + (r2 - r) : ℤ) : ℚ) := by
        have : (0 : ℤ) ≤ s2 - s + (r2 - r) := by omega
        exact_mod_cast this
      exact div_nonneg (div_nonneg hnum (by norm_num)) (le_of_lt ht2')

/-- C1 witness: the counter-reset behaviour at a concrete reset
(snapshot `(1000, 1000)` at time `0`, reading `(0, 0)` at time `2`, then a
growing reading `(512, 512)` at time `3`). -/
theorem rate_reset_rebaseline_witness :
    ((0 : ℤ) + 0 < (NetSnapshot.mk 1000 1000 0).bytes_sent +
      (NetSnapshot.mk 1000 1000 0).bytes_recv) ∧
    (0 < (2 : ℚ) - (NetSnapshot.mk 1000 1000 0).time) ∧
    (get_network_usage (some ⟨1000, 1000, 0⟩) 0 0 2).1 < 0 ∧
    (get_network_usage (some ⟨1000, 1000, 0⟩) 0 0 2).2 = some ⟨0, 0, 2⟩ ∧
    ((get_network_usage (some ⟨0, 0, 2⟩) 512 512 3).1 =
        ((512 - 0 + (512 - 0) : ℤ) : ℚ) / 1024 / (3 - 2) ∧
      0 ≤ (get_network_usage (some ⟨0, 0, 2⟩) 512 512 3).1) := by
  have h := rate_reset_rebaseline ⟨1000, 1000, 0⟩ 0 0 2 (by norm_num) (by norm_num)
  exact ⟨by norm_num, by norm_num, h.1, h.2.1,
    h.2.2 512 512 3 (by norm_num) (by norm_num) (by norm_num)⟩

/-- C2 counterexample: with a stored snapshot `(100, 200)` at time `10` and a
call with counters `(150, 250)` at the same time `10` (elapsed = 0), the call
does return `0`, but the stored snapshot is NOT left unchanged: it is replaced
by the current reading. -/
theorem rate_clock_anomaly_updates_snapshot :
    (get_network_usage (some ⟨100, 200, 10⟩) 150 250 10).2 ≠
      some ⟨100, 200, 10⟩ ∧
    (get_network_usage (some ⟨100, 200, 10⟩) 150 250 10).1 = 0 := by
  constructor
  · simp only [get_network_usage]
    norm_num
  · simp only [get_network_usage]
    norm_num

/-- C2 (amended): when a prior snapshot exists and elapsed time is `≤ 0`
(clock anomaly), the call returns `0` and REPLACES the stored snapshot with
the current reading (it does not leave it unchanged); no division by zero or
by a negative duration occurs, because the quotient is only formed under the
guard `time_delta > 0`. -/
theorem rate_clock_anomaly (l : NetSnapshot) (s r : ℤ) (t : ℚ)
    (ht : t - l.time ≤ 0) :
    get_network_usage (some l) s r t = (0, some ⟨s, r, t⟩) := by
  simp only [get_network_usage, if_neg (not_lt.mpr ht)]

/-- C2 witness: the clock-anomaly behaviour at elapsed time `0`. -/
theorem rate_clock_anomaly_witness :
    ((10 : ℚ) - (NetSnapshot.mk 100 200 10).time ≤ 0) ∧
    get_network_usage (some ⟨100, 200, 10⟩) 150 250 10 =
      (0, some ⟨150, 250, 10⟩) :=
  ⟨by norm_num, rate_clock_anomaly ⟨100, 200, 10⟩ 150 250 10 (by norm_num)⟩

/-- C3 counterexample: a first call with counters `(100, 200)` at time `0`
followed by a second call with counters `(150, 250)` at time `2` does NOT
return `50`: the code divides the byte difference by `1024` (KB conversion),
so it returns `(50 + 50) / 1024 / 2 = 25/512` KB/s. -/
theorem rate_second_call_not_fifty :
    (get_network_usage (get_network_usage none 100 200 0).2 150 250 2).1 ≠
      50 := by
  simp only [get_network_usage]
  norm_num

/-- C3 (amended): the first call (no prior snapshot) stores the current
reading as the baseline and returns `0`; a subsequent call with a prior
snapshot and elapsed time `> 0` returns
`(currentTotal - priorTotal) / 1024 / elapsedSeconds` (the counters are bytes,
the rate is KB/s) and replaces the stored snapshot — in particular, after a
first call with counters `(100, 200)` at time `0`, a second call with counters
`(150, 250)` at time `2` returns `(50 + 50) / 1024 / 2 = 25/512` KB/s,
not `50`. -/
theorem rate_baseline_then_rate :
    (∀ (s r : ℤ) (t : ℚ),
      get_network_usage none s r t = (0, some ⟨s, r, t⟩)) ∧
    (∀ (l : NetSnapshot) (s r : ℤ) (t : ℚ), 0 < t - l.time →
      get_network_usage (some l) s r t =
        (((s - l.bytes_sent + (r - l.bytes_recv) : ℤ) : ℚ) / 1024 /
            (t - l.time),
          some ⟨s, r, t⟩)) ∧
    (get_network_usage (get_network_usage none 100 200 0).2 150 250 2).1 =
      25 / 512 := by
  refine ⟨fun s r t => rfl, fun l s r t ht => ?_, ?_⟩
  · simp only [get_network_usage, if_pos ht]
  · simp only [get_network_usage]
    norm_num

/-- C3 witness: the amended rate formula at the concrete pair of calls from
the claim. -/
theorem rate_baseline_then_rate_witness :
    get_network_usage none 100 200 0 = (0, some ⟨100, 200, 0⟩) ∧
    (0 < (2 : ℚ) - (NetSnapshot.mk 100 200 0).time) ∧
    get_network_usage (some ⟨100, 200, 0⟩) 150 250 2 =
      (((150 - 100 + (250 - 200) : ℤ) : ℚ) / 1024 / (2 - 0),
        some ⟨150, 250, 2⟩) :=
  ⟨rate_baseline_then_rate.1 100 200 0, by norm_num,
    rate_baseline_then_rate.2.1 ⟨100, 200, 0⟩ 150 250 2 (by norm_num)⟩

/-! ## RollingSeries theorems (C4) -/

/-- Pushing `ps` into a deque already holding `W` elements keeps exactly the
last `W` elements of `xs ++ ps`. -/
theorem deque_push_all_full (W : ℕ) :
    ∀ (ps xs : List ℚ), xs.length = W →
      deque_push_all W xs ps = (xs ++ ps).drop ps.length := by
  intro ps
  induction ps with
  | nil =>
      intro xs h
      simp [deque_push_all]
  | cons v rest ih =>
      intro xs h
      have hlen : (deque_append W xs v).length = W := by
        simp only [deque_append, List.length_drop, List.length_append,
          List.length_cons, List.length_nil, h]
        omega
      have step : deque_push_all W xs (v :: rest) =
          deque_push_all W (deque_append W xs v) rest := rfl
      rw [step, ih _ hlen]
      have h1 : deque_append W xs v = (xs ++ [v]).drop 1 := by
        simp only [deque_append, h]
        rw [Nat.add_sub_cancel_left]
      have h2 : deque_append W xs v ++ rest = (xs ++ v :: rest).drop 1 := by
        rw [h1,
          ← List.drop_append_of_le_length (by simp : 1 ≤ (xs ++ [v]).length),
          List.append_assoc]
        simp
      rw [h2, List.drop_drop]
      congr 1
      simp [Nat.add_comm]

/-- C4: starting from the pre-filled history `deque([0] * WIDTH, maxlen=WIDTH)`,
after any sequence of pushes the series has length exactly `WIDTH = 128` —
including after zero pushes — and once at least `WIDTH` pushes have occurred
its contents are exactly the last `WIDTH` pushed values, oldest to newest. -/
theorem rolling_series_invariant (ps : List ℚ) :
    (deque_push_all WIDTH cpu_history0 ps).length = WIDTH ∧
    (WIDTH ≤ ps.length →
      deque_push_all WIDTH cpu_history0 ps = ps.drop (ps.length - WIDTH)) := by
  have hinit : cpu_history0.length = WIDTH := by simp [cpu_history0]
  have h := deque_push_all_full WIDTH ps cpu_history0 hinit
  constructor
  · rw [h]
    simp only [List.length_drop, List.length_append, hinit]
    omega
  · intro hW
    rw [h, List.drop_append_eq_append_drop, hinit]
    have hnil : cpu_history0.drop ps.length = [] := by
      apply List.drop_eq_nil_of_le
      rw [hinit]
      exact hW
    rw [hnil, List.nil_append]

/-- C4 witness: pushing `WIDTH` ones fills the series with exactly those
values. -/
theorem rolling_series_invariant_witness :
    WIDTH ≤ (List.replicate WIDTH (1 : ℚ)).length ∧
    deque_push_all WIDTH cpu_history0 (List.replicate WIDTH (1 : ℚ)) =
      (List.replicate WIDTH (1 : ℚ)).drop
        ((List.replicate WIDTH (1 : ℚ)).length - WIDTH) :=
  ⟨by simp, (rolling_series_invariant (List.replicate WIDTH 1)).2 (by simp)⟩

/-! ## PageModel theorems (C5, C10) -/

/-- One `next` press is `(current_page + 1) % total_pages`. -/
theorem page_step_next (p : ℤ) :
    page_step p PageEvent.next = (p + 1) % total_pages := rfl

/-- One `prev` press is `(current_page - 1) % total_pages`. -/
theorem page_step_prev (p : ℤ) :
    page_step p PageEvent.prev = (p - 1) % total_pages := rfl

/-- C5: the page state machine over `{0, 1, 2}` wraps in both directions:
`previous` from page `0` yields page `N-1`, `next` from page `N-1` yields
page `0`, `N = 3` consecutive `next` presses return to the starting page, and
the current page stays in `{0 .. N-1}` after any sequence of transitions. -/
theorem page_model_wraps :
    page_step 0 PageEvent.prev = total_pages - 1 ∧
    page_step (total_pages - 1) PageEvent.next = 0 ∧
    (∀ p : ℤ, 0 ≤ p → p < total_pages →
      page_run p [PageEvent.next, PageEvent.next, PageEvent.next] = p) ∧
    (∀ (p : ℤ) (evs : List PageEvent), 0 ≤ p → p < total_pages →
      0 ≤ page_run p evs ∧ page_run p evs < total_pages) := by
  refine ⟨by decide, by decide, ?_, ?_⟩
  · intro p h1 h2
    simp only [page_run, List.foldl, page_step_next, total_pages] at *
    omega
  · intro p evs
    induction evs generalizing p with
    | nil =>
        intro h1 h2
        exact ⟨h1, h2⟩
    | cons e rest ih =>
        intro h1 h2
        have hstep : 0 ≤ page_step p e ∧ page_step p e < total_pages := by
          cases e with
          | next =>
              simp only [page_step_next, total_pages] at *
              omega
          | prev =>
              simp only [page_step_prev, total_pages] at *
              omega
        have hrun : page_run p (e :: rest) = page_run (page_step p e) rest := rfl
        rw [hrun]
        exact ih (page_step p e) hstep.1 hstep.2

/-- C5 witness: the wraparound properties at page `0`. -/
theorem page_model_wraps_witness :
    (0 ≤ (0 : ℤ) ∧ (0 : ℤ) < total_pages) ∧
    page_run 0 [PageEvent.next, PageEvent.next, PageEvent.next] = 0 ∧
    (0 ≤ page_run 0 [PageEvent.prev] ∧
      page_run 0 [PageEvent.prev] < total_pages) :=
  ⟨⟨le_refl 0, by decide⟩,
    page_model_wraps.2.2.1 0 (le_refl 0) (by decide),
    page_model_wraps.2.2.2 0 [PageEvent.prev] (le_refl 0) (by decide)⟩

/-- C10: a button-handler invocation whose event is anything other than
`'press'` leaves the whole observable state unchanged: the current page is not
modified and `update_display` is not called (the render count is unchanged). -/
theorem non_press_ignored (ch : ℕ) (event : String) (s : AppState)
    (h : event ≠ "press") :
    next_page ch event s = s ∧ prev_page ch event s = s := by
  constructor
  · simp [next_page, h]
  · simp [prev_page, h]

/-- C10 witness: a `'release'` event on both handlers is a no-op. -/
theorem non_press_ignored_witness :
    ("release" : String) ≠ "press" ∧
    next_page 5 "release" ⟨0, 0⟩ = ⟨0, 0⟩ ∧
    prev_page 3 "release" ⟨0, 0⟩ = ⟨0, 0⟩ :=
  ⟨by decide, (non_press_ignored 5 "release" ⟨0, 0⟩ (by decide)).1,
    (non_press_ignored 3 "release" ⟨0, 0⟩ (by decide)).2⟩

/-! ## Page-2 scaling and temperature theorems (C8, C9) -/

/-- C8 counterexample: a rate of `-1000` KB/s (possible across a counter
reset) is pushed as `-100`, outside the claimed interval `[0, 100]`: the code
clamps only from above (`min(..., 100)`), never from below. -/
theorem net_scaled_negative :
    net_scaled (-1000) = -100 ∧ ¬ (0 ≤ net_scaled (-1000)) := by
  constructor
  · simp only [net_scaled]
    norm_num [min_def]
  · simp only [net_scaled]
    norm_num [min_def]

/-- C8 (amended): the pushed value is `min(rate / 1000 * 100, 100)` — clamped
above at `100` for every rate, but NOT clamped below: it lies in `[0, 100]`
only when the rate is nonnegative; a negative rate pushes a negative value. -/
theorem net_scaled_clamped_above (r : ℚ) :
    net_scaled r ≤ 100 ∧ (0 ≤ r → 0 ≤ net_scaled r ∧ net_scaled r ≤ 100) := by
  refine ⟨min_le_right _ _, fun hr => ⟨?_, min_le_right _ _⟩⟩
  have hnn : 0 ≤ r / 1000 * 100 :=
    mul_nonneg (div_nonneg hr (by norm_num)) (by norm_num)
  exact le_min hnn (by norm_num)

/-- C8 witness: a rate of `2000` KB/s is pushed as a value in `[0, 100]`. -/
theorem net_scaled_clamped_above_witness :
    (0 ≤ (2000 : ℚ)) ∧ 0 ≤ net_scaled 2000 ∧ net_scaled 2000 ≤ 100 :=
  ⟨by norm_num, ((net_scaled_clamped_above 2000).2 (by norm_num)).1,
    ((net_scaled_clamped_above 2000).2 (by norm_num)).2⟩

/-- C9 (code bug): a CPU temperature reading of exactly `0` is available, yet
the temperature text is omitted, because `if cpu_temp:` is Python truthiness
and treats `0.0` like `None`; an unreadable sensor (`None`) and a nonzero
reading behave as the spec says. -/
theorem cpu_temp_zero_omitted :
    cpu_temp_shown (some 0) = false ∧ cpu_temp_shown none = false ∧
    cpu_temp_shown (some 42) = true := by
  decide

/-! ## GraphRenderer theorems (C6, C7) -/

/-- `pyInt` is the floor on nonnegative arguments. -/
theorem pyInt_of_nonneg (q : ℚ) (h : 0 ≤ q) : pyInt q = ⌊q⌋ := if_pos h

/-- Membership in the segment list produced by the `draw_graph` column loop. -/
theorem mem_draw_graph_segments (data : List ℚ) (y_start height : ℤ)
    (max_value : ℚ) (s : ℤ × ℤ × ℤ) :
    s ∈ draw_graph_segments data y_start height max_value ↔
      ∃ x : ℕ, x < data.length ∧ 0 < data.getD x 0 ∧
        0 < bar_height (data.getD x 0) max_value height ∧
        s = ((x : ℤ) + 1,
          y_start + height - 2 - bar_height (data.getD x 0) max_value height,
          y_start + height - 2) := by
  simp only [draw_graph_segments, List.mem_filterMap]
  constructor
  · rintro ⟨⟨x, v⟩, hmem, hf⟩
    rw [List.mk_mem_enum_iff_getElem?] at hmem
    have hx : x < data.length := by
      by_contra hge
      rw [List.getElem?_eq_none (Nat.le_of_not_lt hge)] at hmem
      exact Option.noConfusion hmem
    have hv : data.getD x 0 = v := by
      rw [List.getD_eq_getElem?_getD, hmem]
      rfl
    subst hv
    dsimp only at hf
    split at hf
    case isTrue h1 =>
      split at hf
      case isTrue h2 =>
        injection hf with hf
        exact ⟨x, hx, h1, h2, hf.symm⟩
      case isFalse h2 => exact Option.noConfusion hf
    case isFalse h1 => exact Option.noConfusion hf
  · rintro ⟨x, hx, h1, h2, hs⟩
    refine ⟨(x, data.getD x 0), ?_, ?_⟩
    · rw [List.mk_mem_enum_iff_getElem?, List.getElem?_eq_getElem hx,
        List.getD_eq_getElem?_getD, List.getElem?_eq_getElem hx]
      rfl
    · dsimp only
      rw [if_pos h1, if_pos h2, hs]

/-- With a positive value, a positive ceiling and a region of height at least
`2`, the code's bar height is `min ⌊v / max_value * (height - 2)⌋ (height - 2)`
(truncation equals floor on nonnegative arguments). -/
theorem bar_height_eq_floor (v max_value : ℚ) (height : ℤ) (hv : 0 < v)
    (hmax : 0 < max_value) (hh : 2 ≤ height) :
    bar_height v max_value height =
      min ⌊v / max_value * ((height : ℚ) - 2)⌋ (height - 2) := by
  have h2 : ((2 : ℤ) : ℚ) ≤ (height : ℚ) := by exact_mod_cast hh
  unfold bar_height
  rw [pyInt_of_nonneg]
  apply mul_nonneg (le_of_lt (div_pos hv hmax))
  norm_num at h2 ⊢
  linarith

/-- Any value at or above the ceiling yields the maximal bar height
`height - 2`. -/
theorem bar_height_clips (v max_value : ℚ) (height : ℤ)
    (hle : max_value ≤ v) (hmax : 0 < max_value) (hh : 3 ≤ height) :
    bar_height v max_value height = height - 2 := by
  have hv : 0 < v := lt_of_lt_of_le hmax hle
  have hd : (1 : ℚ) ≤ v / max_value := (one_le_div hmax).mpr hle
  have hcast : (1 : ℚ) ≤ (height : ℚ) - 2 := by
    have h3 : ((3 : ℤ) : ℚ) ≤ (height : ℚ) := by exact_mod_cast hh
    norm_num at h3
    linarith
  rw [bar_height_eq_floor v max_value height hv hmax (by omega)]
  have harg : ((height : ℚ) - 2) ≤ v / max_value * ((height : ℚ) - 2) := by
    nlinarith
  have hfloor : (height - 2 : ℤ) ≤ ⌊v / max_value * ((height : ℚ) - 2)⌋ := by
    apply Int.le_floor.mpr
    push_cast
    linarith
  exact min_eq_right hfloor

/-- Membership in the claimed segment list (helper for the C6 comparison). -/
theorem mem_claimed_graph_segments (data : List ℚ) (y_start height : ℤ)
    (max_value : ℚ) (s : ℤ × ℤ × ℤ) :
    s ∈ claimed_graph_segments data y_start height max_value ↔
      ∃ x : ℕ, x < data.length ∧
        0 < claimed_bar_height (data.getD x 0) max_value height ∧
        s = ((x : ℤ) + 1,
          y_start + height - 2 -
            claimed_bar_height (data.getD x 0) max_value height + 1,
          y_start + height - 2) := by
  simp only [claimed_graph_segments, List.mem_filterMap]
  constructor
  · rintro ⟨⟨x, v⟩, hmem, hf⟩
    rw [List.mk_mem_enum_iff_getElem?] at hmem
    have hx : x < data.length := by
      by_contra hge
      rw [List.getElem?_eq_none (Nat.le_of_not_lt hge)] at hmem
      exact Option.noConfusion hmem
    have hv : data.getD x 0 = v := by
      rw [List.getD_eq_getElem?_getD, hmem]
      rfl
    subst hv
    dsimp only at hf
    split at hf
    case isTrue h1 =>
      injection hf with hf
      exact ⟨x, hx, h1, hf.symm⟩
    case isFalse h1 => exact Option.noConfusion hf
  · rintro ⟨x, hx, h1, hs⟩
    refine ⟨(x, data.getD x 0), ?_, ?_⟩
    · rw [List.mk_mem_enum_iff_getElem?, List.getElem?_eq_getElem hx,
        List.getD_eq_getElem?_getD, List.getElem?_eq_getElem hx]
      rfl
    · dsimp only
      rw [if_pos h1, hs]

/-- C6 counterexample: for the one-column series `[22]` in the region
`(y_start, height) = (0, 12)` with ceiling `100`, the code truncates
(`int(2.2) = 2`) and its line call covers `bar + 1` pixels, so pixel `(1, 8)`
is lit; the renderer described by the claim (`round`, run of exactly `bar`
pixels) does not light that pixel. -/
theorem draw_graph_not_as_claimed :
    draw_graph_pixel [22] 0 12 100 1 8 ∧
      ¬ claimed_graph_pixel [22] 0 12 100 1 8 := by
  have hg : ([22] : List ℚ).getD 0 0 = 22 := rfl
  have hbar : bar_height 22 100 12 = 2 := by
    unfold bar_height
    rw [pyInt_of_nonneg _ (by norm_num)]
    norm_num
  have hcb : claimed_bar_height 22 100 12 = 2 := by
    unfold claimed_bar_height
    rw [round_eq]
    norm_num
  constructor
  · refine ⟨by decide, Or.inr ⟨((((0 : ℕ) : ℤ)) + 1,
      (0 : ℤ) + 12 - 2 - bar_height (([22] : List ℚ).getD 0 0) 100 12,
      (0 : ℤ) + 12 - 2), ?_, by decide, ?_, by decide⟩⟩
    · rw [mem_draw_graph_segments]
      refine ⟨0, by decide, by decide, ?_, rfl⟩
      rw [hg, hbar]
      norm_num
    · dsimp only
      rw [hg, hbar]
      norm_num
  · intro h
    rcases h with hb | ⟨s, hmem, hpx, h1, h2⟩
    · exact absurd hb (by decide)
    · rw [mem_claimed_graph_segments] at hmem
      obtain ⟨x, hx, hpos, hs⟩ := hmem
      have hx1 : x < 1 := by simpa using hx
      have hx0 : x = 0 := by omega
      subst hx0
      rw [hg, hcb] at hs
      subst hs
      dsimp only at hpx h1 h2
      omega

/-- C6 (amended): a lit pixel is either on the one-pixel border or belongs to
a bar column: for each column `x` holding value `v > 0` the code computes
`bar = min(⌊v / max_value * (height - 2)⌋, height - 2)` — truncation, not
rounding — and, if `bar > 0`, lights the `bar + 1` rows from
`y_start + height - 2 - bar` through the bottom interior edge
`y_start + height - 2` at column `x + 1`; nothing else is lit (and an empty
series draws nothing at all). -/
theorem draw_graph_characterization (data : List ℚ) (y_start height : ℤ)
    (max_value : ℚ) (px py : ℤ) (hmax : 0 < max_value) (hh : 2 ≤ height) :
    draw_graph_pixel data y_start height max_value px py ↔
      data ≠ [] ∧
        (onBorder y_start height px py ∨
          ∃ x : ℕ, x < data.length ∧ 0 < data.getD x 0 ∧
            0 < min ⌊data.getD x 0 / max_value * ((height : ℚ) - 2)⌋
                (height - 2) ∧
            px = (x : ℤ) + 1 ∧
            y_start + height - 2 -
                min ⌊data.getD x 0 / max_value * ((height : ℚ) - 2)⌋
                  (height - 2) ≤ py ∧
            py ≤ y_start + height - 2) := by
  unfold draw_graph_pixel
  constructor
  · rintro ⟨hne, hrest⟩
    refine ⟨hne, ?_⟩
    rcases hrest with hb | ⟨s, hmem, hpx, h1, h2⟩
    · exact Or.inl hb
    · rw [mem_draw_graph_segments] at hmem
      obtain ⟨x, hx, hv, hbh, hs⟩ := hmem
      subst hs
      rw [bar_height_eq_floor _ _ _ hv hmax hh] at hbh h1
      exact Or.inr ⟨x, hx, hv, hbh, hpx, h1, h2⟩
  · rintro ⟨hne, hb | ⟨x, hx, hv, hbh, hpx, h1, h2⟩⟩
    · exact ⟨hne, Or.inl hb⟩
    · rw [← bar_height_eq_floor _ _ _ hv hmax hh] at hbh h1
      refine ⟨hne, Or.inr ⟨((x : ℤ) + 1,
        y_start + height - 2 - bar_height (data.getD x 0) max_value height,
        y_start + height - 2), ?_, hpx, h1, h2⟩⟩
      rw [mem_draw_graph_segments]
      exact ⟨x, hx, hv, hbh, rfl⟩

/-- C6 witness: the characterization at the series `[22]`, region `(0, 12)`,
ceiling `100`, pixel `(1, 8)`. -/
theorem draw_graph_characterization_witness :
    (0 : ℚ) < 100 ∧ (2 : ℤ) ≤ 12 ∧
    (draw_graph_pixel [22] 0 12 100 1 8 ↔
      ([22] : List ℚ) ≠ [] ∧
        (onBorder 0 12 1 8 ∨
          ∃ x : ℕ, x < ([22] : List ℚ).length ∧
            0 < ([22] : List ℚ).getD x 0 ∧
            0 < min ⌊([22] : List ℚ).getD x 0 / 100 *
                  (((12 : ℤ) : ℚ) - 2)⌋ ((12 : ℤ) - 2) ∧
            (1 : ℤ) = (x : ℤ) + 1 ∧
            (0 : ℤ) + 12 - 2 -
                min ⌊([22] : List ℚ).getD x 0 / 100 *
                  (((12 : ℤ) : ℚ) - 2)⌋ ((12 : ℤ) - 2) ≤ 8 ∧
            (8 : ℤ) ≤ (0 : ℤ) + 12 - 2)) :=
  ⟨by norm_num, by norm_num,
    draw_graph_characterization [22] 0 12 100 1 8 (by norm_num) (by norm_num)⟩

/-- C7: an all-zero series draws only the border; a column whose value equals
the ceiling gets a bar covering the full interior height (`height - 2` interior
rows, all lit); and any value at or above the ceiling clips to the same
maximal bar height `height - 2`. -/
theorem draw_graph_zero_max_clip :
    (∀ (y_start height : ℤ) (max_value : ℚ) (px py : ℤ),
      draw_graph_pixel (List.replicate WIDTH 0) y_start height max_value px py
        ↔ onBorder y_start height px py) ∧
    (∀ (data : List ℚ) (x : ℕ) (y_start height : ℤ) (max_value : ℚ),
      x < data.length → data.getD x 0 = max_value → 0 < max_value →
      3 ≤ height →
      ∀ py : ℤ, y_start + 1 ≤ py → py ≤ y_start + height - 2 →
        draw_graph_pixel data y_start height max_value ((x : ℤ) + 1) py) ∧
    (∀ (v max_value : ℚ) (height : ℤ), max_value ≤ v → 0 < max_value →
      3 ≤ height → bar_height v max_value height = height - 2) := by
  refine ⟨?_, ?_, bar_height_clips⟩
  · intro y_start height max_value px py
    have hseg : draw_graph_segments (List.replicate WIDTH 0) y_start height
        max_value = [] := by
      rw [draw_graph_segments, List.filterMap_eq_nil_iff]
      rintro ⟨x, v⟩ hmem
      rw [List.mk_mem_enum_iff_getElem?, List.getElem?_replicate] at hmem
      split at hmem
      case isTrue =>
        have hv : (0 : ℚ) = v := by
          injection hmem
        dsimp only
        rw [if_neg]
        rw [← hv]
        norm_num
      case isFalse => exact Option.noConfusion hmem
    unfold draw_graph_pixel
    rw [hseg]
    simp [List.replicate_eq_nil_iff, WIDTH]
  · intro data x y_start height max_value hx hval hmax hh py hpy1 hpy2
    have hv : 0 < data.getD x 0 := hval ▸ hmax
    have hbh : bar_height (data.getD x 0) max_value height = height - 2 :=
      bar_height_clips _ _ _ hval.ge hmax hh
    unfold draw_graph_pixel
    refine ⟨?_, Or.inr ⟨((x : ℤ) + 1,
      y_start + height - 2 - bar_height (data.getD x 0) max_value height,
      y_start + height - 2), ?_, rfl, ?_, hpy2⟩⟩
    · intro hnil
      rw [hnil] at hx
      simp at hx
    · rw [mem_draw_graph_segments]
      refine ⟨x, hx, hv, ?_, rfl⟩
      rw [hbh]
      omega
    · dsimp only
      rw [hbh]
      omega

/-- C7 witness: the three cases at the CPU-graph region `(12, 20)` with
ceiling `100`. -/
theorem draw_graph_zero_max_clip_witness :
    (draw_graph_pixel (List.replicate WIDTH 0) 12 20 100 5 14 ↔
      onBorder 12 20 5 14) ∧
    draw_graph_pixel [100] 12 20 100 (((0 : ℕ) : ℤ) + 1) 13 ∧
    bar_height 150 100 20 = 20 - 2 :=
  ⟨draw_graph_zero_max_clip.1 12 20 100 5 14,
    draw_graph_zero_max_clip.2.1 [100] 0 12 20 100 (by norm_num) rfl
      (by norm_num) (by norm_num) 13 (by norm_num) (by norm_num),
    draw_graph_zero_max_clip.2.2 150 100 20 (by norm_num) (by norm_num)
      (by norm_num)⟩

end GfxHatStats
